import Mathlib

/-!
Verification of the Chessica backend session engine against its
natural-language specification.

Each definition below is a shallow embedding of a function of the Python
source (file and symbol named in its doc comment).  Machine integers are
modelled as `Int`/`Nat` (no overflow is relevant here), Python strings as
`String` or `List Char`, dictionaries as association lists in insertion
order, and wall-clock times as `ℚ` (for the rate limiter) or `Int`
milliseconds (for game clocks).
-/

namespace Chessica

/-! ## Move-quality classification (backend/app/engine.py `_classify_delta`) -/

/-- Embeds `_classify_delta` from backend/app/engine.py. -/
def classifyDelta (delta_cp : Int) : String :=
  if delta_cp ≥ 150 then "brilliant"
  else if delta_cp ≥ 80 then "great"
  else if delta_cp ≥ 30 then "good"
  else if delta_cp ≤ -150 then "blunder"
  else if delta_cp ≤ -80 then "mistake"
  else if delta_cp ≤ -30 then "inaccuracy"
  else "sharp"

/-- The verdict order {blunder < mistake < inaccuracy < sharp < good < great <
brilliant} used by the spec's monotonicity statement. -/
def verdictRank (v : String) : Nat :=
  if v = "blunder" then 0
  else if v = "mistake" then 1
  else if v = "inaccuracy" then 2
  else if v = "sharp" then 3
  else if v = "good" then 4
  else if v = "great" then 5
  else 6

/-! ## Score conversion (backend/app/engine.py `_score_to_cp`) -/

/-- `CHECKMATE_CP` from backend/app/engine.py. -/
def CHECKMATE_CP : Int := 10000

/-- A white-point-of-view analyzer score (`chess.engine.PovScore.white()`):
either a mate distance or a centipawn value. -/
inductive PovScore where
  | mate (distance : Int)
  | cp (value : Int)
deriving DecidableEq, Repr

/-- Embeds `_score_to_cp` from backend/app/engine.py.  The Python
`pov.mate() and pov.mate() > 0` is falsy when the mate distance is `0`, and
`pov.score() or 0` returns `0` when the centipawn value is `0`. -/
def scoreToCp (score : Option PovScore) : Int :=
  match score with
  | none => 0
  | some (PovScore.mate m) => if m ≠ 0 ∧ m > 0 then CHECKMATE_CP else -CHECKMATE_CP
  | some (PovScore.cp v) => if v = 0 then 0 else v

/-! ## Insight construction (backend/app/engine.py `build_move_insight`) -/

/-- `chess.Color`: `white` is `chess.WHITE`, `black` is `chess.BLACK`. -/
inductive Color where
  | white
  | black
deriving DecidableEq, Repr

/-- The numeric/enumerated fields of the ply annotation dictionary built by
`build_move_insight` (its SAN, themes, commentary and timestamp fields
depend on the chess library and are outside the claims). -/
structure MoveInsightData where
  ply : Nat
  side : String
  eval_cp : Int
  delta_cp : Int
  verdict : String
deriving DecidableEq, Repr

/-- Embeds the `delta_cp`/`verdict` computation of `build_move_insight`
from backend/app/engine.py: `delta_cp = new_eval_cp - prev_eval_cp`,
negated when the mover is black, then classified. -/
def build_move_insight (mover_color : Color) (side : String)
    (prev_eval_cp new_eval_cp : Int) (ply_index : Nat) : MoveInsightData :=
  let delta0 := new_eval_cp - prev_eval_cp
  let delta_cp := if mover_color = Color.black then -delta0 else delta0
  { ply := ply_index
    side := side
    eval_cp := new_eval_cp
    delta_cp := delta_cp
    verdict := classifyDelta delta_cp }

/-! ## Multiplayer clock deduction (backend/app/api/multiplayer.py `play_move`) -/

/-- `ClockState` from backend/app/schemas.py. -/
structure ClockState where
  player_ms : Int
  engine_ms : Int
deriving DecidableEq, Repr

/-- The elapsed-time computation of `play_move`
(backend/app/api/multiplayer.py): `max(0, now - record.updated_at)` in
milliseconds, `0` when the record has no `updated_at`. -/
def elapsedMs (now : Int) (updated_at : Option Int) : Int :=
  match updated_at with
  | none => 0
  | some u => max 0 (now - u)

/-- The clock-update step of `play_move` (backend/app/api/multiplayer.py
lines 244-249): the mover's clock is reduced by `elapsed_ms`, floored at
zero; the other clock is copied unchanged. -/
def applyClockDeduction (clocks : ClockState) (mover_color : String)
    (elapsed_ms : Int) : ClockState :=
  if mover_color = "white" then
    { clocks with player_ms := max 0 (clocks.player_ms - elapsed_ms) }
  else
    { clocks with engine_ms := max 0 (clocks.engine_ms - elapsed_ms) }

/-! ## Session repository (backend/app/store.py) -/

/-- `chess.STARTING_FEN`, the `DEFAULT_FEN` of backend/app/store.py. -/
def DEFAULT_FEN : String :=
  "rnbqkbnr/pppppppp/8/8/8/8/PPPPPPPP/RNBQKBNR w KQkq - 0 1"

/-- `TimeControl` from backend/app/schemas.py. -/
structure TimeControl where
  initial_ms : Int
  increment_ms : Int
deriving DecidableEq, Repr

/-- The fields of `SessionRecord` (backend/app/store.py) that the verified
claims read or write. -/
structure SessionRecord where
  player_color : String
  engine_color : String
  status : String
  fen : String
  clocks : ClockState
  is_multiplayer : Bool
  player_white_id : Option String := none
  player_black_id : Option String := none
  result : Option String := none
  winner : Option String := none
  last_eval_cp : Int := 0
deriving DecidableEq, Repr

/-- Python truthiness of an `Optional[str]`: `None` and `""` are falsy. -/
def strTruthy : Option String → Bool
  | none => false
  | some s => s ≠ ""

/-- Embeds `SessionRepository._resolve_colors` from backend/app/store.py. -/
def resolveColors (requested : String) : String × String :=
  let requested := if requested = "auto" then "white" else requested
  let player_color := requested
  let engine_color := if player_color = "white" then "black" else "white"
  (player_color, engine_color)

/-- Embeds `SessionRepository.create_session` from backend/app/store.py
(the record-assembly part; persistence and engine-settings resolution are
outside the claims). -/
def create_session (color : String) (time_control : TimeControl) : SessionRecord :=
  let pe := resolveColors color
  { player_color := pe.1
    engine_color := pe.2
    status := "active"
    fen := DEFAULT_FEN
    clocks := ⟨time_control.initial_ms, time_control.initial_ms⟩
    is_multiplayer := false }

/-- `MultiplayerSessionCreateRequest` from backend/app/schemas.py. -/
structure MultiplayerSessionCreateRequest where
  player_white_id : Option String := none
  player_black_id : Option String := none
  time_control : TimeControl
  color : String := "auto"
  seed_fen : Option String := none
deriving DecidableEq, Repr

/-- Embeds `SessionRepository.create_multiplayer_session` from
backend/app/store.py; `coin` models the `random.choice([True, False])`
used to swap the ids when both sides requested `"auto"`. -/
def create_multiplayer_session (payload : MultiplayerSessionCreateRequest)
    (coin : Bool) : SessionRecord :=
  let white_id := payload.player_white_id
  let black_id := payload.player_black_id
  let ids :=
    if payload.color = "white" ∧ ¬ strTruthy white_id ∧ strTruthy black_id then
      (black_id, white_id)
    else if payload.color = "black" ∧ ¬ strTruthy black_id ∧ strTruthy white_id then
      (black_id, white_id)
    else if payload.color = "auto" ∧ strTruthy white_id ∧ strTruthy black_id ∧ coin then
      (black_id, white_id)
    else
      (white_id, black_id)
  { player_color := "white"
    engine_color := "black"
    status := "active"
    fen := match payload.seed_fen with
           | some f => if f = "" then DEFAULT_FEN else f
           | none => DEFAULT_FEN
    clocks := ⟨payload.time_control.initial_ms, payload.time_control.initial_ms⟩
    is_multiplayer := true
    player_white_id := ids.1
    player_black_id := ids.2 }

/-! ## Matchmaking queue (backend/app/api/multiplayer.py) -/

/-- The per-player entry dictionary written to `matchmaking_queue` by
`join_queue` (backend/app/api/multiplayer.py). -/
structure QueueEntry where
  bucket : String
  color : String
  player_id : String
  time_control : TimeControl
deriving DecidableEq, Repr

/-- Embeds `_bucket` from backend/app/api/multiplayer.py:
`f"{initial_ms}:{increment_ms}"`. -/
def bucketOf (time_control : TimeControl) : String :=
  toString time_control.initial_ms ++ ":" ++ toString time_control.increment_ms

/-- The skip condition of `_pop_match` (backend/app/api/multiplayer.py line
98): an entry is passed over iff both colors are non-`"auto"` and equal. -/
def skipIncompatible (entry_color preferred_color : String) : Bool :=
  (entry_color != "auto") && (preferred_color != "auto")
    && (entry_color == preferred_color)

/-- The spec's own notion of color compatibility, stated for comparison
with the code: both `"auto"`, or complementary. -/
def claimCompatible (entry_color requester_color : String) : Bool :=
  (entry_color == "auto" && requester_color == "auto")
    || (entry_color == "white" && requester_color == "black")
    || (entry_color == "black" && requester_color == "white")

/-- Embeds the in-memory loop of `_pop_match`
(backend/app/api/multiplayer.py): scan `matchmaking_queue` in insertion
order, skip entries with a different bucket, the requester's own id, or an
incompatible color, and pop and return the first remaining entry. -/
def popMatch (player_id bucket preferred_color : String) :
    List (String × QueueEntry) → Option QueueEntry × List (String × QueueEntry)
  | [] => (none, [])
  | (other_id, info) :: rest =>
    if info.bucket != bucket || other_id == player_id then
      let r := popMatch player_id bucket preferred_color rest
      (r.1, (other_id, info) :: r.2)
    else if skipIncompatible info.color preferred_color then
      let r := popMatch player_id bucket preferred_color rest
      (r.1, (other_id, info) :: r.2)
    else
      (some info, rest)

/-- Python dict assignment `d[k] = v` on an insertion-ordered association
list: replace in place if the key exists, else append. -/
def dictSet (q : List (String × QueueEntry)) (k : String) (v : QueueEntry) :
    List (String × QueueEntry) :=
  if q.any (fun p => p.1 == k) then
    q.map (fun p => if p.1 == k then (k, v) else p)
  else q ++ [(k, v)]

/-- The matchmaking result visible to the requester. -/
inductive QueueResult where
  | matched (opponent : QueueEntry)
  | queued
deriving DecidableEq, Repr

/-- Embeds the queue logic of `join_queue`
(backend/app/api/multiplayer.py): pop a match if one exists, otherwise
write the requester's entry and report `queued`. -/
def join_queue (q : List (String × QueueEntry)) (player_id color : String)
    (time_control : TimeControl) : QueueResult × List (String × QueueEntry) :=
  match popMatch player_id (bucketOf time_control) color q with
  | (some info, q2) => (QueueResult.matched info, q2)
  | (none, q2) =>
      (QueueResult.queued,
        dictSet q2 player_id
          ⟨bucketOf time_control, color, player_id, time_control⟩)

/-! ## Single-player move validation (backend/app/api/sessions.py `make_move`) -/

/-- The error responses raised by the validation prefix of `make_move`. -/
inductive ApiError where
  | sessionNotFound
  | wrongTurn
  | invalidPromotion
  | illegalMove
deriving DecidableEq, Repr

/-- The HTTP status codes of the `HTTPException`s raised by `make_move`. -/
def httpStatus : ApiError → Nat
  | ApiError.sessionNotFound => 404
  | ApiError.wrongTurn => 409
  | ApiError.invalidPromotion => 400
  | ApiError.illegalMove => 400

/-- Outcome of the validation prefix of `make_move`: either an
`HTTPException` or control reaching the move-application code. -/
inductive MoveValidation where
  | rejected (e : ApiError)
  | proceeds
deriving DecidableEq, Repr

/-- The promotion-character validation of `make_move`
(backend/app/api/sessions.py lines 200-203): when the UCI string is longer
than four characters, its fifth character, lowercased, must be one of
`q`, `r`, `b`, `n`. -/
def promotionCharOk (uci : List Char) : Bool :=
  if uci.length > 4 then
    let promo := (uci.getD 4 ' ').toLower
    promo == 'q' || promo == 'r' || promo == 'b' || promo == 'n'
  else true

/-- `store.get_session`: look a session up by id (the cache fill performed
on a miss stores the very value read, so the stored records are unchanged). -/
def lookupSession (sessions : List (String × SessionRecord)) (sid : String) :
    Option SessionRecord :=
  (sessions.find? (fun p => p.1 == sid)).map Prod.snd

/-- Embeds the validation prefix of `make_move`
(backend/app/api/sessions.py lines 174-206) in source order: 404 for an
unknown session; when a (truthy) `uci` is supplied, 409 unless the board's
active color is the player's, then 400 for a malformed promotion
character, then 400 for a move outside the legal list.  `board_active` is
`Board.from_fen(record.fen).active_color` and `legal_moves` is
`board.legal_moves()`, both computed by the chess library.  The returned
session map is the store after the call, unchanged on every path shown
because the first persist happens only after this prefix. -/
def make_move_validation (sessions : List (String × SessionRecord))
    (session_id : String) (uci : Option (List Char)) (board_active : String)
    (legal_moves : List (List Char)) :
    MoveValidation × List (String × SessionRecord) :=
  match lookupSession sessions session_id with
  | none => (MoveValidation.rejected ApiError.sessionNotFound, sessions)
  | some record =>
    match uci with
    | none => (MoveValidation.proceeds, sessions)
    | some u =>
      if u = [] then (MoveValidation.proceeds, sessions)
      else
        let player_turn := if record.player_color = "white" then "w" else "b"
        if board_active ≠ player_turn then
          (MoveValidation.rejected ApiError.wrongTurn, sessions)
        else if ¬ promotionCharOk u then
          (MoveValidation.rejected ApiError.invalidPromotion, sessions)
        else if ¬ legal_moves.contains u then
          (MoveValidation.rejected ApiError.illegalMove, sessions)
        else (MoveValidation.proceeds, sessions)

/-- A concrete stored session used to exercise `make_move_validation`:
the player is white but the position (after 1.e4) has black to move. -/
def promotionCounterexampleRecord : SessionRecord :=
  { player_color := "white"
    engine_color := "black"
    status := "active"
    fen := "rnbqkbnr/pppppppp/8/8/4P3/8/PPPP1PPP/RNBQKBNR b KQkq - 0 1"
    clocks := ⟨300000, 300000⟩
    is_multiplayer := false }

/-! ## Theme detection (backend/app/engine.py `_detect_themes`) -/

/-- `chess.PieceType`. -/
inductive PieceType where
  | pawn
  | knight
  | bishop
  | rook
  | queen
  | king
deriving DecidableEq, Repr

/-- `chess.square_file`. -/
def square_file (square : Nat) : Nat := square % 8

/-- `chess.square_rank`. -/
def square_rank (square : Nat) : Nat := square / 8

/-- Embeds `_is_center_square` from backend/app/engine.py: file index in
`(2, 3, 4, 5)` and rank index in `(2, 3, 4, 5)`. -/
def is_center_square (square : Nat) : Bool :=
  (square_file square == 2 || square_file square == 3
      || square_file square == 4 || square_file square == 5)
    && (square_rank square == 2 || square_rank square == 3
      || square_rank square == 4 || square_rank square == 5)

/-- Embeds `_is_strong_center` from backend/app/engine.py. -/
def is_strong_center (square : Nat) : Bool :=
  decide (2 ≤ square_file square) && decide (square_file square ≤ 5)
    && decide (2 ≤ square_rank square) && decide (square_rank square ≤ 5)

/-- The two conditions under which `_detect_themes`
(backend/app/engine.py) adds `"central_control"` to the theme set: a pawn
landing on `_is_center_square`, or a knight/bishop/queen landing on
`_is_strong_center`.  No other line of `_detect_themes` adds this theme. -/
def centralControlDetected (piece_type : PieceType) (destination : Nat) : Bool :=
  (piece_type == PieceType.pawn && is_center_square destination)
    || ((piece_type == PieceType.knight || piece_type == PieceType.bishop
          || piece_type == PieceType.queen)
        && is_strong_center destination)

/-! ## Coach rate limiter (backend/app/api/sessions.py
`_enforce_coach_rate_limit`) -/

/-- Outcome of one coach call at the rate limiter: proceed, or the 429
`HTTPException`. -/
inductive CoachCallResult where
  | ok
  | rateLimited
deriving DecidableEq, Repr

/-- The HTTP status of the rate limiter's rejection. -/
def coachRateLimitStatus : Nat := 429

/-- Embeds `_enforce_coach_rate_limit` (backend/app/api/sessions.py) for
one session: times are modelled as `ℚ`.  When `window` or `max_calls` is
falsy the limiter is disabled; otherwise timestamps older than
`now - window` are popped from the front, the call is rejected when at
least `max_calls` timestamps remain, and on success `now` is appended. -/
def rlStep (window : ℚ) (max_calls : Nat) (now : ℚ) (timestamps : List ℚ) :
    List ℚ × CoachCallResult :=
  if window = 0 ∨ max_calls = 0 then (timestamps, CoachCallResult.ok)
  else
    if max_calls ≤ (timestamps.dropWhile (fun t => decide (t < now - window))).length then
      (timestamps.dropWhile (fun t => decide (t < now - window)),
        CoachCallResult.rateLimited)
    else
      (timestamps.dropWhile (fun t => decide (t < now - window)) ++ [now],
        CoachCallResult.ok)

/-- The times of the successful calls when the limiter processes `calls`
in order starting from state `ts`. -/
def rlRun (window : ℚ) (max_calls : Nat) :
    List ℚ → List ℚ → List ℚ
  | _, [] => []
  | ts, c :: cs =>
    (if (rlStep window max_calls c ts).2 = CoachCallResult.ok then [c] else [])
      ++ rlRun window max_calls (rlStep window max_calls c ts).1 cs

/-- The limiter's timestamp list after processing `calls` in order
starting from state `ts`. -/
def rlRunState (window : ℚ) (max_calls : Nat) :
    List ℚ → List ℚ → List ℚ
  | ts, [] => ts
  | ts, c :: cs =>
    rlRunState window max_calls (rlStep window max_calls c ts).1 cs

/-! ## Multiplayer resign (backend/app/api/multiplayer.py `resign`) -/

/-- Embeds the `resign` endpoint of backend/app/api/multiplayer.py: `409`
when the session is not multiplayer, otherwise the record is marked
completed/resigned with the winner computed from `record.player_color`. -/
def resignOutcome (record : SessionRecord) : Except Nat SessionRecord :=
  if ¬ record.is_multiplayer then Except.error 409
  else Except.ok
    { record with
        status := "completed"
        result := some "resigned"
        winner := some (if record.player_color = "black" then "white" else "black") }

end Chessica

namespace Chessica

set_option maxHeartbeats 2000000 in
/-- C2: the verdict classifier returns each verdict exactly on the stated
centipawn interval, and its rank is monotone in `delta_cp`. -/
theorem classifyDelta_thresholds (d : Int) :
    (classifyDelta d = "brilliant" ↔ 150 ≤ d) ∧
    (classifyDelta d = "great" ↔ 80 ≤ d ∧ d < 150) ∧
    (classifyDelta d = "good" ↔ 30 ≤ d ∧ d < 80) ∧
    (classifyDelta d = "sharp" ↔ -30 < d ∧ d < 30) ∧
    (classifyDelta d = "inaccuracy" ↔ -80 < d ∧ d ≤ -30) ∧
    (classifyDelta d = "mistake" ↔ -150 < d ∧ d ≤ -80) ∧
    (classifyDelta d = "blunder" ↔ d ≤ -150) ∧
    (∀ d2 : Int, d ≤ d2 →
      verdictRank (classifyDelta d) ≤ verdictRank (classifyDelta d2)) := by
  refine ⟨?_, ?_, ?_, ?_, ?_, ?_, ?_, ?_⟩
  all_goals unfold classifyDelta
  · split_ifs <;> simp_all <;> omega
  · split_ifs <;> simp_all <;> omega
  · split_ifs <;> simp_all <;> omega
  · split_ifs <;> simp_all <;> omega
  · split_ifs <;> simp_all <;> omega
  · split_ifs <;> simp_all <;> omega
  · split_ifs <;> simp_all <;> omega
  · intro d2 hle
    split_ifs <;> simp [verdictRank] <;> omega

/-- Witness for C2 at concrete inputs. -/
theorem classifyDelta_thresholds_witness :
    verdictRank (classifyDelta (-200)) ≤ verdictRank (classifyDelta 200) :=
  (classifyDelta_thresholds (-200)).2.2.2.2.2.2.2 200 (by decide)

/-- C3: `build_move_insight` sets `delta_cp` to `new_eval_cp - prev_eval_cp`
for a white mover and to its negation for a black mover. -/
theorem build_move_insight_delta_cp (side : String)
    (prev_eval_cp new_eval_cp : Int) (ply_index : Nat) :
    (build_move_insight Color.white side prev_eval_cp new_eval_cp ply_index).delta_cp
        = new_eval_cp - prev_eval_cp ∧
    (build_move_insight Color.black side prev_eval_cp new_eval_cp ply_index).delta_cp
        = -(new_eval_cp - prev_eval_cp) := by
  constructor <;> simp [build_move_insight]

/-- C4: `_score_to_cp` maps a positive mate distance to `+10000`, a
non-positive one to `-10000`, a missing score to `0`, and a centipawn score
to its white-POV value. -/
theorem scoreToCp_spec :
    (∀ m : Int, 0 < m → scoreToCp (some (PovScore.mate m)) = 10000) ∧
    (∀ m : Int, m ≤ 0 → scoreToCp (some (PovScore.mate m)) = -10000) ∧
    scoreToCp none = 0 ∧
    (∀ v : Int, scoreToCp (some (PovScore.cp v)) = v) := by
  refine ⟨?_, ?_, rfl, ?_⟩
  · intro m hm
    simp only [scoreToCp, CHECKMATE_CP]
    rw [if_pos ⟨by omega, hm⟩]
  · intro m hm
    simp only [scoreToCp, CHECKMATE_CP]
    rw [if_neg (by omega)]
  · intro v
    by_cases hv : v = 0 <;> simp [scoreToCp, hv]

/-- Witness for C4 at concrete inputs. -/
theorem scoreToCp_spec_witness :
    scoreToCp (some (PovScore.mate 3)) = 10000 ∧
    scoreToCp (some (PovScore.mate 0)) = -10000 ∧
    scoreToCp (some (PovScore.mate (-2))) = -10000 :=
  ⟨scoreToCp_spec.1 3 (by decide), scoreToCp_spec.2.1 0 (by decide),
    scoreToCp_spec.2.1 (-2) (by decide)⟩

/-- C5: the multiplayer clock step subtracts `max 0 (now - updated_at)`
from the mover's clock only (floored at zero), leaves the opponent's clock
unchanged, and keeps both clocks non-negative. -/
theorem play_move_clock_deduction (clocks : ClockState) (mover_color : String)
    (now : Int) (updated_at : Option Int)
    (hp : 0 ≤ clocks.player_ms) (he : 0 ≤ clocks.engine_ms) :
    0 ≤ elapsedMs now updated_at ∧
    (mover_color = "white" →
      (applyClockDeduction clocks mover_color (elapsedMs now updated_at)).player_ms
          = max 0 (clocks.player_ms - elapsedMs now updated_at) ∧
      (applyClockDeduction clocks mover_color (elapsedMs now updated_at)).engine_ms
          = clocks.engine_ms) ∧
    (mover_color ≠ "white" →
      (applyClockDeduction clocks mover_color (elapsedMs now updated_at)).engine_ms
          = max 0 (clocks.engine_ms - elapsedMs now updated_at) ∧
      (applyClockDeduction clocks mover_color (elapsedMs now updated_at)).player_ms
          = clocks.player_ms) ∧
    0 ≤ (applyClockDeduction clocks mover_color (elapsedMs now updated_at)).player_ms ∧
    0 ≤ (applyClockDeduction clocks mover_color (elapsedMs now updated_at)).engine_ms := by
  refine ⟨?_, ?_, ?_, ?_, ?_⟩
  · cases updated_at <;> simp [elapsedMs] <;> omega
  · intro h
    simp [applyClockDeduction, h]
  · intro h
    simp [applyClockDeduction, h]
  · by_cases h : mover_color = "white" <;> simp [applyClockDeduction, h] <;> omega
  · by_cases h : mover_color = "white" <;> simp [applyClockDeduction, h] <;> omega

/-- Helper: dropping the elements below a cutoff from the front of a
sorted list leaves only elements at or above the cutoff. -/
theorem sorted_dropWhile_ge (c : ℚ) : ∀ (l : List ℚ), l.Sorted (· ≤ ·) →
    ∀ x ∈ l.dropWhile (fun t => decide (t < c)), c ≤ x := by
  intro l
  induction l with
  | nil => intro _ x hx; simp [List.dropWhile] at hx
  | cons a l ih =>
    intro hs x hx
    rw [List.dropWhile_cons] at hx
    split_ifs at hx with ha
    · exact ih (List.sorted_cons.mp hs).2 x hx
    · simp at ha
      rcases List.mem_cons.mp hx with rfl | hx'
      · exact ha
      · exact le_trans ha ((List.sorted_cons.mp hs).1 x hx')

/-- Helper: the last element of a sorted list bounds all its elements. -/
theorem sorted_le_getLast : ∀ (l : List ℚ), l.Sorted (· ≤ ·) →
    ∀ (h : l ≠ []), ∀ x ∈ l, x ≤ l.getLast h := by
  intro l
  induction l with
  | nil => intro _ h; exact absurd rfl h
  | cons a l ih =>
    intro hs h x hx
    cases l with
    | nil =>
      obtain rfl : x = a := by simpa using hx
      simp
    | cons b l' =>
      rw [List.getLast_cons (by simp)]
      rcases List.mem_cons.mp hx with rfl | hx'
      · exact le_trans ((List.sorted_cons.mp hs).1 b (by simp))
          (ih (List.sorted_cons.mp hs).2 (by simp) b (by simp))
      · exact ih (List.sorted_cons.mp hs).2 (by simp) x hx'

/-- Helper: every successful call time comes from the call trace. -/
theorem rlRun_subset (w : ℚ) (n : Nat) :
    ∀ (calls ts : List ℚ), ∀ s ∈ rlRun w n ts calls, s ∈ calls := by
  intro calls
  induction calls with
  | nil => intro ts s hs; simp [rlRun] at hs
  | cons c cs ih =>
    intro ts s hs
    rw [rlRun] at hs
    rcases List.mem_append.mp hs with h | h
    · by_cases hok : (rlStep w n c ts).2 = CoachCallResult.ok
      · rw [if_pos hok] at h
        obtain rfl : s = c := by simpa using h
        exact List.mem_cons_self _ _
      · rw [if_neg hok] at h
        simp at h
    · exact List.mem_cons_of_mem _ (ih _ s h)

/-- Helper, the limiter's inductive invariant: starting from a state `ts`
that is the recent suffix of the successes `pre ++ ts` so far (everything
in `pre` is older than `T - w`, everything is sorted and at most `T`, and
the remaining calls are sorted and at least `T`), the completed run is
sorted, every success has at most `n` successes within the trailing window
`[s - w, s]` of the whole run, and the final limiter state is again such a
recent suffix of all successes. -/
theorem rlRun_aux (w : ℚ) (n : Nat) (hw : 0 < w) (hn : 0 < n) :
    ∀ (calls ts pre : List ℚ) (T : ℚ),
      (∀ c ∈ calls, T ≤ c) →
      calls.Sorted (· ≤ ·) →
      (pre ++ ts).Sorted (· ≤ ·) →
      (∀ x ∈ pre, x < T - w) →
      (∀ x ∈ pre ++ ts, x ≤ T) →
      ((pre ++ ts ++ rlRun w n ts calls).Sorted (· ≤ ·) ∧
        (∀ s ∈ rlRun w n ts calls,
          ((pre ++ ts ++ rlRun w n ts calls).filter
              (fun x => decide (s - w ≤ x) && decide (x ≤ s))).length ≤ n) ∧
        ∃ pre2 T2,
          pre2 ++ rlRunState w n ts calls = pre ++ ts ++ rlRun w n ts calls ∧
          (T2 = T ∨ T2 ∈ calls) ∧ T ≤ T2 ∧
          (∀ x ∈ pre2, x < T2 - w) ∧
          (∀ x ∈ pre2 ++ rlRunState w n ts calls, x ≤ T2)) := by
  intro calls
  induction calls with
  | nil =>
    intro ts pre T hT hsc hs hpre hle
    refine ⟨by simpa [rlRun] using hs, by simp [rlRun], pre, T, ?_,
      Or.inl rfl, le_refl T, hpre, ?_⟩
    · simp [rlRun, rlRunState]
    · simpa [rlRunState] using hle
  | cons c cs ih =>
    intro ts pre T hT hsc hs hpre hle
    have hTc : T ≤ c := hT c (List.mem_cons_self _ _)
    have hcs := List.sorted_cons.mp hsc
    have hts_sorted : ts.Sorted (· ≤ ·) := (List.pairwise_append.mp hs).2.1
    have hsplit : ts.takeWhile (fun t => decide (t < c - w))
        ++ ts.dropWhile (fun t => decide (t < c - w)) = ts :=
      List.takeWhile_append_dropWhile _ _
    have htk_lt : ∀ x ∈ ts.takeWhile (fun t => decide (t < c - w)), x < c - w := by
      intro x hx
      simpa using List.mem_takeWhile_imp hx
    have hpr_ge : ∀ x ∈ ts.dropWhile (fun t => decide (t < c - w)), c - w ≤ x :=
      sorted_dropWhile_ge (c - w) ts hts_sorted
    have hguard : ¬ (w = 0 ∨ n = 0) := by
      push_neg
      exact ⟨hw.ne', hn.ne'⟩
    have hpre'_lt : ∀ x ∈ pre ++ ts.takeWhile (fun t => decide (t < c - w)),
        x < c - w := by
      intro x hx
      rcases List.mem_append.mp hx with hx | hx
      · exact lt_of_lt_of_le (hpre x hx) (by linarith)
      · exact htk_lt x hx
    have hle_c : ∀ x ∈ pre ++ ts, x ≤ c := fun x hx => le_trans (hle x hx) hTc
    have hassoc : (pre ++ ts.takeWhile (fun t => decide (t < c - w)))
        ++ ts.dropWhile (fun t => decide (t < c - w)) = pre ++ ts := by
      rw [List.append_assoc, hsplit]
    by_cases hfull :
        n ≤ (ts.dropWhile (fun t => decide (t < c - w))).length
    · -- rejected call: state is pruned, no success recorded
      have hstep : rlStep w n c ts
          = (ts.dropWhile (fun t => decide (t < c - w)),
              CoachCallResult.rateLimited) := by
        unfold rlStep
        rw [if_neg hguard, if_pos hfull]
      have hrun : rlRun w n ts (c :: cs)
          = rlRun w n (ts.dropWhile (fun t => decide (t < c - w))) cs := by
        rw [rlRun, hstep]
        simp
      have hstate : rlRunState w n ts (c :: cs)
          = rlRunState w n (ts.dropWhile (fun t => decide (t < c - w))) cs := by
        rw [rlRunState, hstep]
      obtain ⟨ihs, ihb, pre2, T2, iheq, ihT2mem, ihT2ge, ihpre2, ihle2⟩ :=
        ih (ts.dropWhile (fun t => decide (t < c - w)))
          (pre ++ ts.takeWhile (fun t => decide (t < c - w))) c hcs.1 hcs.2
          (by rw [hassoc]; exact hs) hpre'_lt
          (by rw [hassoc]; exact hle_c)
      have hlist : ((pre ++ ts.takeWhile (fun t => decide (t < c - w)))
          ++ ts.dropWhile (fun t => decide (t < c - w)))
          ++ rlRun w n (ts.dropWhile (fun t => decide (t < c - w))) cs
          = (pre ++ ts) ++ rlRun w n (ts.dropWhile (fun t => decide (t < c - w))) cs := by
        rw [hassoc]
      rw [hlist] at ihs ihb iheq
      refine ⟨?_, ?_, pre2, T2, ?_, ?_, le_trans hTc ihT2ge, ihpre2, ?_⟩
      · rw [hrun]; exact ihs
      · rw [hrun]; exact ihb
      · rw [hstate, hrun]; exact iheq
      · rcases ihT2mem with h | h
        · exact Or.inr (h ▸ List.mem_cons_self _ _)
        · exact Or.inr (List.mem_cons_of_mem _ h)
      · rw [hstate]; exact ihle2
    · -- accepted call: `c` is appended to the pruned state and succeeds
      have hstep : rlStep w n c ts
          = (ts.dropWhile (fun t => decide (t < c - w)) ++ [c],
              CoachCallResult.ok) := by
        unfold rlStep
        rw [if_neg hguard, if_neg hfull]
      have hrun : rlRun w n ts (c :: cs)
          = c :: rlRun w n (ts.dropWhile (fun t => decide (t < c - w)) ++ [c]) cs := by
        rw [rlRun, hstep]
        simp
      have hstate : rlRunState w n ts (c :: cs)
          = rlRunState w n (ts.dropWhile (fun t => decide (t < c - w)) ++ [c]) cs := by
        rw [rlRunState, hstep]
      have hs_c : ((pre ++ ts) ++ [c]).Sorted (· ≤ ·) :=
        List.pairwise_append.mpr ⟨hs, List.sorted_singleton c, by
          intro a ha b hb
          obtain rfl : b = c := by simpa using hb
          exact hle_c a ha⟩
      have hlistc : (pre ++ ts.takeWhile (fun t => decide (t < c - w)))
          ++ (ts.dropWhile (fun t => decide (t < c - w)) ++ [c])
          = (pre ++ ts) ++ [c] := by
        conv_rhs => rw [← hsplit]
        simp only [List.append_assoc]
      obtain ⟨ihs, ihb, pre2, T2, iheq, ihT2mem, ihT2ge, ihpre2, ihle2⟩ :=
        ih (ts.dropWhile (fun t => decide (t < c - w)) ++ [c])
          (pre ++ ts.takeWhile (fun t => decide (t < c - w))) c hcs.1 hcs.2
          (by rw [hlistc]; exact hs_c) hpre'_lt
          (by
            rw [hlistc]
            intro x hx
            rcases List.mem_append.mp hx with hx | hx
            · exact hle_c x hx
            · obtain rfl : x = c := by simpa using hx
              exact le_refl _)
      have hlist2 : ((pre ++ ts.takeWhile (fun t => decide (t < c - w)))
          ++ (ts.dropWhile (fun t => decide (t < c - w)) ++ [c]))
          ++ rlRun w n (ts.dropWhile (fun t => decide (t < c - w)) ++ [c]) cs
          = (pre ++ ts)
              ++ (c :: rlRun w n (ts.dropWhile (fun t => decide (t < c - w)) ++ [c]) cs) := by
        rw [hlistc]
        simp only [List.append_assoc, List.singleton_append]
      rw [hlist2] at ihs ihb iheq
      refine ⟨?_, ?_, pre2, T2, ?_, ?_, le_trans hTc ihT2ge, ihpre2, ?_⟩
      · rw [hrun]; exact ihs
      · rw [hrun]
        intro s hsmem
        rcases List.mem_cons.mp hsmem with rfl | hsL
        · -- here the new call `c` has been renamed to `s` by the substitution
          by_cases hcL :
              s ∈ rlRun w n (ts.dropWhile (fun t => decide (t < s - w)) ++ [s]) cs
          · exact ihb s hcL
          · rw [List.filter_append, List.filter_append]
            have hfpre : pre.filter
                (fun x => decide (s - w ≤ x) && decide (x ≤ s)) = [] := by
              rw [List.filter_eq_nil_iff]
              intro a ha
              simp only [Bool.and_eq_true, decide_eq_true_eq, not_and]
              intro hge
              exact absurd hge (not_le.mpr (lt_of_lt_of_le (hpre a ha) (by linarith)))
            have hfts : ts.filter
                (fun x => decide (s - w ≤ x) && decide (x ≤ s))
                = ts.dropWhile (fun t => decide (t < s - w)) := by
              conv_lhs => rw [← hsplit]
              rw [List.filter_append]
              have h1 : (ts.takeWhile (fun t => decide (t < s - w))).filter
                  (fun x => decide (s - w ≤ x) && decide (x ≤ s)) = [] := by
                rw [List.filter_eq_nil_iff]
                intro a ha
                simp only [Bool.and_eq_true, decide_eq_true_eq, not_and]
                intro hge
                exact absurd hge (not_le.mpr (htk_lt a ha))
              have h2 : (ts.dropWhile (fun t => decide (t < s - w))).filter
                  (fun x => decide (s - w ≤ x) && decide (x ≤ s))
                  = ts.dropWhile (fun t => decide (t < s - w)) := by
                rw [List.filter_eq_self]
                intro a ha
                have hats : a ∈ ts := by
                  rw [← hsplit]
                  exact List.mem_append_right _ ha
                simp only [Bool.and_eq_true, decide_eq_true_eq]
                exact ⟨hpr_ge a ha, hle_c a (List.mem_append_right _ hats)⟩
              rw [h1, h2, List.nil_append]
            have hftail : (s :: rlRun w n
                  (ts.dropWhile (fun t => decide (t < s - w)) ++ [s]) cs).filter
                (fun x => decide (s - w ≤ x) && decide (x ≤ s))
                = [s] := by
              rw [List.filter_cons_of_pos (by
                simp only [Bool.and_eq_true, decide_eq_true_eq]
                exact ⟨by linarith, le_refl s⟩)]
              congr 1
              rw [List.filter_eq_nil_iff]
              intro a ha
              simp only [Bool.and_eq_true, decide_eq_true_eq, not_and]
              intro _ hle_a
              have hacs : a ∈ cs := rlRun_subset w n cs _ a ha
              have : s ≤ a := hcs.1 a hacs
              obtain rfl : a = s := le_antisymm hle_a this
              exact hcL ha
            rw [hfpre, hfts, hftail, List.nil_append, List.length_append,
              List.length_singleton]
            omega
        · exact ihb s hsL
      · rw [hstate, hrun]; exact iheq
      · rcases ihT2mem with h | h
        · exact Or.inr (h ▸ List.mem_cons_self _ _)
        · exact Or.inr (List.mem_cons_of_mem _ h)
      · rw [hstate]; exact ihle2

set_option maxHeartbeats 1000000 in
/-- C6: with a positive configured window `W` and limit `N`, along any
nondecreasing trace of coach calls for one session at most `N` calls
succeed within any sliding window `[a, a + W]`, and a call arriving when
`N` successful calls already lie inside its window `[now - W, now]` is
rejected with the 429 rate-limit result. -/
theorem coach_rate_limit_sliding_window (w : ℚ) (n : Nat) (hw : 0 < w)
    (hn : 0 < n) (calls : List ℚ) (hsorted : calls.Sorted (· ≤ ·)) :
    (∀ a : ℚ,
      ((rlRun w n [] calls).filter
          (fun x => decide (a ≤ x) && decide (x ≤ a + w))).length ≤ n) ∧
    (∀ pre now post, calls = pre ++ now :: post →
      n ≤ ((rlRun w n [] pre).filter
            (fun x => decide (now - w ≤ x) && decide (x ≤ now))).length →
      (rlStep w n now (rlRunState w n [] pre)).2 = CoachCallResult.rateLimited) := by
  constructor
  · intro a
    have hlb : ∃ T, ∀ c ∈ calls, T ≤ c := by
      cases calls with
      | nil => exact ⟨0, by simp⟩
      | cons c0 cs0 =>
        refine ⟨c0, ?_⟩
        intro c hc
        rcases List.mem_cons.mp hc with rfl | h
        · exact le_refl _
        · exact (List.sorted_cons.mp hsorted).1 c h
    obtain ⟨T, hT⟩ := hlb
    obtain ⟨hsort, hbound, -⟩ :=
      rlRun_aux w n hw hn calls [] [] T hT hsorted (by simp) (by simp) (by simp)
    simp only [List.nil_append] at hsort hbound
    by_cases hS : (rlRun w n [] calls).filter
        (fun x => decide (a ≤ x) && decide (x ≤ a + w)) = []
    · rw [hS]
      exact Nat.zero_le n
    · have hSsorted : ((rlRun w n [] calls).filter
          (fun x => decide (a ≤ x) && decide (x ≤ a + w))).Sorted (· ≤ ·) :=
        List.Pairwise.filter _ hsort
      have hs_mem_S := List.getLast_mem hS
      have hs_memL := List.mem_of_mem_filter hs_mem_S
      have hPa := List.of_mem_filter hs_mem_S
      simp only [Bool.and_eq_true, decide_eq_true_eq] at hPa
      have hmax := sorted_le_getLast _ hSsorted hS
      have hb := hbound _ hs_memL
      have himp : ∀ x ∈ rlRun w n [] calls,
          (decide (a ≤ x) && decide (x ≤ a + w)) = true →
          (decide (((rlRun w n [] calls).filter
              (fun x => decide (a ≤ x) && decide (x ≤ a + w))).getLast hS - w ≤ x)
            && decide (x ≤ ((rlRun w n [] calls).filter
              (fun x => decide (a ≤ x) && decide (x ≤ a + w))).getLast hS)) = true := by
        intro x hxL hPx
        have hxS : x ∈ (rlRun w n [] calls).filter
            (fun x => decide (a ≤ x) && decide (x ≤ a + w)) :=
          List.mem_filter.mpr ⟨hxL, hPx⟩
        simp only [Bool.and_eq_true, decide_eq_true_eq] at hPx ⊢
        exact ⟨by linarith [hPa.2, hPx.1], hmax x hxS⟩
      have heq1 : (rlRun w n [] calls).filter
            (fun x => decide (a ≤ x) && decide (x ≤ a + w))
          = (rlRun w n [] calls).filter
              (fun x => (decide (a ≤ x) && decide (x ≤ a + w))
                && (decide (((rlRun w n [] calls).filter
                  (fun x => decide (a ≤ x) && decide (x ≤ a + w))).getLast hS - w ≤ x)
                && decide (x ≤ ((rlRun w n [] calls).filter
                  (fun x => decide (a ≤ x) && decide (x ≤ a + w))).getLast hS))) := by
        apply List.filter_congr
        intro x hx
        cases hPx : (decide (a ≤ x) && decide (x ≤ a + w)) with
        | false => rw [Bool.false_and]
        | true => rw [himp x hx hPx, Bool.true_and]
      rw [heq1, ← List.filter_filter]
      exact le_trans (List.length_filter_le _ _) hb
  · intro pre now post hcalls hcount
    subst hcalls
    have hparts := List.pairwise_append.mp hsorted
    have hpre_sorted : pre.Sorted (· ≤ ·) := hparts.1
    have hpre_le_now : ∀ x ∈ pre, x ≤ now :=
      fun x hx => hparts.2.2 x hx now (List.mem_cons_self _ _)
    have hT : ∀ c ∈ pre, pre.headD now ≤ c := by
      cases pre with
      | nil => simp
      | cons p pr =>
        intro c hc
        rcases List.mem_cons.mp hc with rfl | h
        · exact le_refl _
        · exact (List.sorted_cons.mp hpre_sorted).1 c h
    have hTnow : pre.headD now ≤ now := by
      cases pre with
      | nil => simp
      | cons p pr => exact hpre_le_now p (List.mem_cons_self _ _)
    obtain ⟨hsort, -, pre2, T2, heq, hT2mem, hT2ge, hpre2, hle2⟩ :=
      rlRun_aux w n hw hn pre [] [] (pre.headD now) hT hpre_sorted
        (by simp) (by simp) (by simp)
    simp only [List.nil_append] at hsort heq hle2
    have hT2now : T2 ≤ now := by
      rcases hT2mem with rfl | h
      · exact hTnow
      · exact hpre_le_now T2 h
    have hS_sorted : (rlRunState w n [] pre).Sorted (· ≤ ·) := by
      have := heq ▸ hsort
      exact (List.pairwise_append.mp this).2.1
    have hsplitS : (rlRunState w n [] pre).takeWhile (fun t => decide (t < now - w))
        ++ (rlRunState w n [] pre).dropWhile (fun t => decide (t < now - w))
        = rlRunState w n [] pre := List.takeWhile_append_dropWhile _ _
    rw [← heq, List.filter_append] at hcount
    have hf2 : pre2.filter (fun x => decide (now - w ≤ x) && decide (x ≤ now)) = [] := by
      rw [List.filter_eq_nil_iff]
      intro x hx
      simp only [Bool.and_eq_true, decide_eq_true_eq, not_and]
      intro hge
      have := hpre2 x hx
      exact absurd hge (not_le.mpr (by linarith))
    rw [hf2, List.nil_append] at hcount
    have hfS : (rlRunState w n [] pre).filter
          (fun x => decide (now - w ≤ x) && decide (x ≤ now))
        = ((rlRunState w n [] pre).dropWhile (fun t => decide (t < now - w))).filter
            (fun x => decide (now - w ≤ x) && decide (x ≤ now)) := by
      conv_lhs => rw [← hsplitS]
      rw [List.filter_append]
      have h1 : ((rlRunState w n [] pre).takeWhile
            (fun t => decide (t < now - w))).filter
          (fun x => decide (now - w ≤ x) && decide (x ≤ now)) = [] := by
        rw [List.filter_eq_nil_iff]
        intro x hx
        simp only [Bool.and_eq_true, decide_eq_true_eq, not_and]
        intro hge
        have := List.mem_takeWhile_imp hx
        simp only [decide_eq_true_eq] at this
        exact absurd hge (not_le.mpr this)
      rw [h1, List.nil_append]
    rw [hfS] at hcount
    have hfinal : n ≤ ((rlRunState w n [] pre).dropWhile
        (fun t => decide (t < now - w))).length :=
      le_trans hcount (List.length_filter_le _ _)
    have hguard : ¬ (w = 0 ∨ n = 0) := by
      push_neg
      exact ⟨hw.ne', hn.ne'⟩
    unfold rlStep
    rw [if_neg hguard, if_pos hfinal]

/-- Witness for C6 at a concrete input. -/
theorem coach_rate_limit_sliding_window_witness :
    ((rlRun 10 2 [] [0, 1, 2]).filter
        (fun x => decide ((0 : ℚ) ≤ x) && decide (x ≤ 0 + 10))).length ≤ 2 :=
  (coach_rate_limit_sliding_window 10 2 (by norm_num) (by norm_num) [0, 1, 2]
      (by norm_num [List.sorted_cons])).1 0

/-- Helper: a successful `popMatch` returns an entry of the queue, under a
key other than the requester, in the requested bucket, whose color is not
skipped. -/
theorem popMatch_fst_some (player_id bucket preferred_color : String)
    (q : List (String × QueueEntry)) (info : QueueEntry)
    (h : (popMatch player_id bucket preferred_color q).1 = some info) :
    ∃ k, (k, info) ∈ q ∧ k ≠ player_id ∧ info.bucket = bucket ∧
      skipIncompatible info.color preferred_color = false := by
  induction q with
  | nil => simp [popMatch] at h
  | cons p rest ih =>
    obtain ⟨other_id, i⟩ := p
    simp only [popMatch] at h
    split_ifs at h with h1 h2
    · obtain ⟨k, hk, hkp, hb, hs⟩ := ih h
      exact ⟨k, List.mem_cons_of_mem _ hk, hkp, hb, hs⟩
    · obtain ⟨k, hk, hkp, hb, hs⟩ := ih h
      exact ⟨k, List.mem_cons_of_mem _ hk, hkp, hb, hs⟩
    · simp only [Bool.or_eq_true, bne_iff_ne, ne_eq, beq_iff_eq] at h1
      push_neg at h1
      obtain rfl : i = info := by simpa using h
      exact ⟨other_id, List.mem_cons_self _ _, h1.2, h1.1, by simpa using h2⟩

/-- Helper: when every queue entry is the requester's own, in another
bucket, or color-skipped, `popMatch` finds nothing and leaves the queue as
it was. -/
theorem popMatch_none (player_id bucket preferred_color : String)
    (q : List (String × QueueEntry))
    (h : ∀ p ∈ q, p.1 = player_id ∨ p.2.bucket ≠ bucket ∨
        skipIncompatible p.2.color preferred_color = true) :
    popMatch player_id bucket preferred_color q = (none, q) := by
  induction q with
  | nil => rfl
  | cons p rest ih =>
    obtain ⟨other_id, i⟩ := p
    have hp := h (other_id, i) (List.mem_cons_self _ _)
    have hrec := ih fun p hp => h p (List.mem_cons_of_mem _ hp)
    simp only [popMatch, hrec]
    rcases hp with hid | hbk | hskip
    · replace hid : other_id = player_id := hid
      have hc : (i.bucket != bucket || other_id == player_id) = true := by
        simp [hid]
      simp [hc]
    · replace hbk : i.bucket ≠ bucket := hbk
      have hc : (i.bucket != bucket || other_id == player_id) = true := by
        simp [hbk]
      simp [hc]
    · replace hskip : skipIncompatible i.color preferred_color = true := hskip
      by_cases hc : (i.bucket != bucket || other_id == player_id) = true
      · simp [hc]
      · simp [hc, hskip]

/-- Helper: Python dict assignment leaves the assigned binding in the
dictionary. -/
theorem mem_dictSet (q : List (String × QueueEntry)) (k : String) (v : QueueEntry) :
    (k, v) ∈ dictSet q k v := by
  unfold dictSet
  split_ifs with h
  · obtain ⟨p, hp, hpk⟩ := List.any_eq_true.mp h
    refine List.mem_map.mpr ⟨p, hp, ?_⟩
    rw [if_pos hpk]
  · exact List.mem_append_right _ (List.mem_singleton.mpr rfl)

/-- C1 corrected: `join_queue` pairs the requester only with an entry of
the same bucket, under a different player id, whose color preference is
not "both non-auto and equal" (so one-sided `"auto"` also pairs); when no
such entry exists the requester's entry is written and the call reports
`queued`. -/
theorem join_queue_pairing (q : List (String × QueueEntry))
    (player_id color : String) (time_control : TimeControl)
    (hwf : ∀ p ∈ q, p.1 = p.2.player_id) :
    (∀ info q2,
      join_queue q player_id color time_control = (QueueResult.matched info, q2) →
        info ∈ q.map Prod.snd ∧ info.player_id ≠ player_id ∧
        info.bucket = bucketOf time_control ∧
        skipIncompatible info.color color = false) ∧
    ((∀ p ∈ q, p.1 = player_id ∨ p.2.bucket ≠ bucketOf time_control ∨
        skipIncompatible p.2.color color = true) →
      (join_queue q player_id color time_control).1 = QueueResult.queued ∧
      (player_id, (⟨bucketOf time_control, color, player_id, time_control⟩ : QueueEntry))
          ∈ (join_queue q player_id color time_control).2) := by
  constructor
  · intro info q2 h
    unfold join_queue at h
    split at h
    case _ i q3 heq =>
      have hi : QueueResult.matched i = QueueResult.matched info := congrArg Prod.fst h
      obtain rfl : i = info := by injection hi
      obtain ⟨k, hk, hkp, hb, hs⟩ := popMatch_fst_some player_id
        (bucketOf time_control) color q i (by rw [heq])
      have hkid : k = i.player_id := hwf (k, i) hk
      exact ⟨List.mem_map.mpr ⟨(k, i), hk, rfl⟩, hkid ▸ hkp, hb, hs⟩
    case _ q3 heq => simp at h
  · intro hall
    have hpm := popMatch_none player_id (bucketOf time_control) color q hall
    unfold join_queue
    rw [hpm]
    exact ⟨rfl, mem_dictSet q player_id _⟩

/-- C1 counterexample to the claim as stated: a requester preferring
`"white"` is paired with an `"auto"` entry, although that pair is neither
"both auto" nor complementary. -/
theorem join_queue_claim_counterexample :
    (join_queue
        [("p2", (⟨bucketOf ⟨1000, 0⟩, "auto", "p2", ⟨1000, 0⟩⟩ : QueueEntry))]
        "p1" "white" ⟨1000, 0⟩).1
      = QueueResult.matched ⟨bucketOf ⟨1000, 0⟩, "auto", "p2", ⟨1000, 0⟩⟩ ∧
    claimCompatible "auto" "white" = false := by
  exact ⟨rfl, rfl⟩

/-- Witness for C1 at a concrete input. -/
theorem join_queue_pairing_witness :
    (⟨bucketOf ⟨1000, 0⟩, "black", "p2", ⟨1000, 0⟩⟩ : QueueEntry)
        ∈ ([("p2", (⟨bucketOf ⟨1000, 0⟩, "black", "p2", ⟨1000, 0⟩⟩ : QueueEntry))].map
            Prod.snd) ∧
    ("p2" : String) ≠ "p1" ∧
    (⟨bucketOf ⟨1000, 0⟩, "black", "p2", ⟨1000, 0⟩⟩ : QueueEntry).bucket
        = bucketOf ⟨1000, 0⟩ ∧
    skipIncompatible "black" "white" = false :=
  (join_queue_pairing
      [("p2", (⟨bucketOf ⟨1000, 0⟩, "black", "p2", ⟨1000, 0⟩⟩ : QueueEntry))]
      "p1" "white" ⟨1000, 0⟩ (by intro p hp; simp at hp; rw [hp])).1
    ⟨bucketOf ⟨1000, 0⟩, "black", "p2", ⟨1000, 0⟩⟩ [] rfl

/-- C7 corrected: when the session exists, it is the player's turn, and
the submitted UCI string has a malformed promotion character, `make_move`
rejects with HTTP 400 before any store mutation. -/
theorem make_move_rejects_bad_promotion (sessions : List (String × SessionRecord))
    (session_id : String) (record : SessionRecord) (u : List Char)
    (board_active : String) (legal_moves : List (List Char))
    (hfound : lookupSession sessions session_id = some record)
    (hturn : board_active = (if record.player_color = "white" then "w" else "b"))
    (hbad : promotionCharOk u = false) :
    make_move_validation sessions session_id (some u) board_active legal_moves
      = (MoveValidation.rejected ApiError.invalidPromotion, sessions) ∧
    httpStatus ApiError.invalidPromotion = 400 := by
  have hne : u ≠ [] := by
    intro hnil
    rw [hnil] at hbad
    simp [promotionCharOk] at hbad
  refine ⟨?_, rfl⟩
  unfold make_move_validation
  rw [hfound]
  simp [hne, hturn, hbad]

/-- C7 counterexample to the claim as stated: a malformed-promotion
request sent out of turn fails with 409 (wrong turn), not 400. -/
theorem make_move_promotion_counterexample :
    (make_move_validation [("sess1", promotionCounterexampleRecord)] "sess1"
        (some ['e', '7', 'e', '8', 'k']) "b" []).1
      = MoveValidation.rejected ApiError.wrongTurn ∧
    promotionCharOk ['e', '7', 'e', '8', 'k'] = false ∧
    httpStatus ApiError.wrongTurn = 409 ∧
    ApiError.wrongTurn ≠ ApiError.invalidPromotion ∧
    ApiError.wrongTurn ≠ ApiError.illegalMove := by
  refine ⟨by decide, by decide, rfl, by decide, by decide⟩

/-- Witness for C7 at a concrete input. -/
theorem make_move_rejects_bad_promotion_witness :
    (make_move_validation [("sess1", promotionCounterexampleRecord)] "sess1"
        (some ['e', '7', 'e', '8', 'k']) "w" [])
      = (MoveValidation.rejected ApiError.invalidPromotion,
          [("sess1", promotionCounterexampleRecord)]) ∧
    httpStatus ApiError.invalidPromotion = 400 :=
  make_move_rejects_bad_promotion [("sess1", promotionCounterexampleRecord)]
    "sess1" promotionCounterexampleRecord ['e', '7', 'e', '8', 'k'] "w" []
    (by decide) (by decide) (by decide)

/-- C8 corrected: a pawn move triggers `central_control` exactly when its
destination lies in the 4x4 extended center (files c-f, ranks 3-6), not
only on the d- and e-files. -/
theorem pawn_central_control_extended_center (destination : Nat) :
    centralControlDetected PieceType.pawn destination = true ↔
      (2 ≤ square_file destination ∧ square_file destination ≤ 5 ∧
        2 ≤ square_rank destination ∧ square_rank destination ≤ 5) := by
  simp only [centralControlDetected, is_center_square]
  simp [square_file, square_rank]
  omega

/-- C8 counterexample to the claim as stated: the pawn destination c4
(square 26, file index 2) is not on the d- or e-file, yet theme detection
attaches `central_control`. -/
theorem central_control_claim_counterexample :
    centralControlDetected PieceType.pawn 26 = true ∧
    square_file 26 = 2 ∧
    ¬ (square_file 26 = 3 ∨ square_file 26 = 4) := by decide

/-- C9: multiplayer records are created with `player_color = "white"`, so
resigning any session produced by `create_multiplayer_session` marks it
completed/resigned with winner `"black"`, whoever resigns. -/
theorem resign_always_black_wins (payload : MultiplayerSessionCreateRequest)
    (coin : Bool) :
    (create_multiplayer_session payload coin).player_color = "white" ∧
    resignOutcome (create_multiplayer_session payload coin)
      = Except.ok
          { create_multiplayer_session payload coin with
              status := "completed"
              result := some "resigned"
              winner := some "black" } := by
  constructor
  · rfl
  · simp only [resignOutcome, create_multiplayer_session]
    norm_num

/-- C10: resolving `"auto"` yields a white player and black engine, and for
every admissible requested color the created single-player session has
complementary `player_color`/`engine_color`. -/
theorem create_session_colors (color : String) (time_control : TimeControl)
    (hcolor : color = "white" ∨ color = "black" ∨ color = "auto") :
    (color = "auto" →
      (create_session color time_control).player_color = "white" ∧
      (create_session color time_control).engine_color = "black") ∧
    (create_session color time_control).player_color
        ≠ (create_session color time_control).engine_color ∧
    ((create_session color time_control).player_color = "white" ∧
        (create_session color time_control).engine_color = "black" ∨
      (create_session color time_control).player_color = "black" ∧
        (create_session color time_control).engine_color = "white") := by
  rcases hcolor with h | h | h <;> subst h <;>
    refine ⟨?_, ?_, ?_⟩ <;> simp [create_session, resolveColors]

/-- Witness for C10 at a concrete input. -/
theorem create_session_colors_witness :
    (create_session "auto" ⟨300000, 0⟩).player_color = "white" ∧
    (create_session "auto" ⟨300000, 0⟩).engine_color = "black" :=
  (create_session_colors "auto" ⟨300000, 0⟩ (Or.inr (Or.inr rfl))).1 rfl

/-- Witness for C5 at concrete inputs. -/
theorem play_move_clock_deduction_witness :
    0 ≤ elapsedMs 5000 (some 2000) ∧
    (applyClockDeduction ⟨60000, 60000⟩ "white" (elapsedMs 5000 (some 2000))).player_ms
        = max 0 (60000 - elapsedMs 5000 (some 2000)) ∧
    (applyClockDeduction ⟨60000, 60000⟩ "white" (elapsedMs 5000 (some 2000))).engine_ms
        = 60000 := by
  have h := play_move_clock_deduction ⟨60000, 60000⟩ "white" 5000 (some 2000)
    (by decide) (by decide)
  exact ⟨h.1, (h.2.1 rfl).1, (h.2.1 rfl).2⟩

end Chessica
